import Mathlib

/-!
Verification of the conversion-and-splitting engine of the CSV2Parquet
repository (src/app/convert.py, class Convert).

The engine is embedded shallowly:

- a dataframe is a list of rows (the row type is abstract); column values that
  the engine inspects are exposed through explicit functions (for example a
  date accessor mapping a row to a timestamp);
- the pandas readers and writers are oracles: read takes a function from the
  encoding actually used to the outcome of the underlying read, and save
  reports the list of (file name, fragment) pairs it writes;
- Python exceptions become Except values, Python dict mutation is modelled by
  an explicit heap of dictionaries, and Python int(...) division inside
  save_by_parts is modelled with natural floor division (exact for all
  realistic table sizes).

Definitions mirror src/app/convert.py; theorems state and settle the spec
claims about them.
-/

namespace Convert

/-! ## String helpers

Python expressions used by convert.py: the substring test of the form
needle in hay, and file_name.rsplit(".", 1)[0]. -/

/-- Boolean test that the first character list is a leading segment of the
second, written by structural recursion so that concrete instances evaluate in
the kernel. -/
def listStarts : List Char → List Char → Bool
  | [], _ => true
  | _ :: _, [] => false
  | a :: as, b :: bs => (a == b) && listStarts as bs

/-- Boolean test that the first character list occurs contiguously somewhere
inside the second. -/
def listHasSeg (needle : List Char) : List Char → Bool
  | [] => listStarts needle []
  | b :: bs => listStarts needle (b :: bs) || listHasSeg needle bs

/-- Python substring containment: the expression needle in hay on strings. -/
def strContains (hay needle : String) : Bool :=
  listHasSeg needle.toList hay.toList

/-- Python file_name.rsplit(".", 1)[0]: everything before the last dot when the
string holds a dot, otherwise the string unchanged. -/
def rsplitDot1 (s : String) : String :=
  let r := s.toList.reverse
  if '.' ∈ r then String.mk ((r.dropWhile (fun c => c != '.')).tail.reverse)
  else s

/-- Base file name used by save_by_date (grouped modes) and save_by_parts:
convert.py lines 103-104 and 126-127, namely
if self.output_type in file_name: file_name = file_name.rsplit(".", 1)[0]. -/
def baseFileName (file_name output_type : String) : String :=
  if strContains file_name output_type then rsplitDot1 file_name else file_name

/-- Modelled from the spec: the spec sentence for the base filename says a path
that contains the extension substring anywhere gets truncated at the last
occurrence of that substring. This definition follows those words (everything
strictly before the last occurrence of the substring), for comparison with
baseFileName, which is the code translation. -/
def baseFileNameSpec (file_name output_type : String) : String :=
  if strContains file_name output_type then
    let cs := file_name.toList
    let occs := (List.range (cs.length + 1)).filter
      (fun i => listStarts output_type.toList (cs.drop i))
    match occs.getLast? with
    | some i => String.mk (cs.take i)
    | none => file_name
  else file_name

/-- Python str(n).zfill(2) for the month numbers produced by Series.dt.month
(always 1..12, so sign handling is irrelevant): pad the decimal string with a
leading zero up to width 2. -/
def zfill2 (n : Int) : String :=
  let s := toString n
  if s.length < 2 then String.mk ('0' :: s.toList) else s

/-! ## Python values

The settings dictionaries of convert.py hold heterogeneous Python values; the
engine only ever distinguishes None, strings, ints and bools. -/

/-- Python values stored in the settings dictionaries. -/
inductive PyVal where
  | vNone
  | vStr (s : String)
  | vInt (n : Int)
  | vBool (b : Bool)
  deriving DecidableEq, Repr

/-- Python truthiness of a settings value: None, empty string, 0 and False are
falsy. -/
def truthy : PyVal → Bool
  | PyVal.vNone => false
  | PyVal.vStr s => s.length != 0
  | PyVal.vInt n => n != 0
  | PyVal.vBool b => b

/-- Decimal digits of a string as a natural number, none when the list is empty
or holds a non-digit. -/
def digitsToNat (l : List Char) : Option Nat :=
  if l.isEmpty then none
  else if l.all Char.isDigit then
    some (l.foldl (fun acc c => acc * 10 + (c.toNat - 48)) 0)
  else none

/-- Python int(s) on a string: optional sign followed by decimal digits, none
when the conversion raises ValueError. -/
def parseIntStr (s : String) : Option Int :=
  match s.toList with
  | '-' :: rest => (digitsToNat rest).map (fun n => -(n : Int))
  | '+' :: rest => (digitsToNat rest).map (fun n => (n : Int))
  | l => (digitsToNat l).map (fun n => (n : Int))

/-- Python int(v) on a settings value: none when the conversion raises. -/
def pyInt? : PyVal → Option Int
  | PyVal.vInt n => some n
  | PyVal.vBool b => some (if b then 1 else 0)
  | PyVal.vStr s => parseIntStr s
  | PyVal.vNone => none

/-- Test used by convert for the length branch: int(split_by) succeeds and is
strictly positive. -/
def toPositiveInt (v : PyVal) : Bool :=
  match pyInt? v with
  | some n => decide (0 < n)
  | none => false

/-! ## Reader

Convert.read (convert.py lines 40-68). The underlying pandas reader is an
oracle from the encoding actually passed to the outcome; for parquet input the
oracle simply ignores its argument. -/

/-- Errors surfaced by Convert.read: the ValueError for an unsupported file
type (line 50), or a failure of the underlying pandas reader. -/
inductive ReadError (eps : Type) where
  | unsupportedKind (input_type : String)
  | failed (e : eps)
  deriving DecidableEq, Repr

/-- Convert.read: dispatch on the input type, one attempt with the configured
encoding (settings.get with default utf-8), and on failure of a csv read under
the default encoding a single retry with ISO-8859-1 substituted. The exception
of the retry, not the first attempt, propagates when both fail. -/
def read {Frame eps : Type} (input_type : String) (encoding? : Option String)
    (attempt : String → Except eps Frame) : Except (ReadError eps) Frame :=
  if input_type = "csv" ∨ input_type = "parquet" then
    match attempt (encoding?.getD "utf-8") with
    | Except.ok df => Except.ok df
    | Except.error e =>
        if input_type = "csv" ∧ encoding?.getD "utf-8" = "utf-8" then
          match attempt "ISO-8859-1" with
          | Except.ok df => Except.ok df
          | Except.error e2 => Except.error (ReadError.failed e2)
        else Except.error (ReadError.failed e)
  else Except.error (ReadError.unsupportedKind input_type)

/-! ## Writer

Convert.save (convert.py lines 70-79). The model records which files the call
writes; index materialization only changes the content of the written frame,
which the claims never inspect, so the frame is passed through unchanged. Note
the method has no else branch: an output type that is neither parquet nor csv
falls through both conditions, writes nothing and raises nothing. -/

/-- Convert.save as the list of (file name, frame) writes it performs, inside
an error channel so that claims about raised errors are statable. The code has
no raise statement, so the result is always ok. -/
def save {Frame eps : Type} (output_type : String) (df : Frame)
    (file_name : String) : Except eps (List (String × Frame)) :=
  if output_type = "parquet" then Except.ok [(file_name, df)]
  else if output_type = "csv" then Except.ok [(file_name, df)]
  else Except.ok []

/-! ## Timestamps

Values produced by pandas to_datetime on the date column. A timestamp is a
calendar date plus an abstract sub-day time component (tick), ordered
lexicographically; pandas Timestamp(year, month, 1) is day 1 at tick 0. -/

/-- Timestamp with year, month (1..12), day and a sub-day time component. -/
structure Timestamp where
  year : Int
  month : Int
  day : Int
  tick : Int
  deriving DecidableEq, Repr

/-- Strict lexicographic comparison of timestamps, the pandas ordering. -/
def Timestamp.ltB (a b : Timestamp) : Bool :=
  if a.year < b.year then true
  else if b.year < a.year then false
  else if a.month < b.month then true
  else if b.month < a.month then false
  else if a.day < b.day then true
  else if b.day < a.day then false
  else decide (a.tick < b.tick)

/-- Pandas Timestamp(ts.year, ts.month, 1): midnight on the first day of the
month of ts (convert.py line 98). -/
def firstOfMonth (ts : Timestamp) : Timestamp :=
  Timestamp.mk ts.year ts.month 1 0

/-- Pandas subtraction of DateOffset(months=n) on a first-of-month timestamp
(convert.py line 99): shift the month index down by n with year borrow. Day
clamping of general dates never arises because the engine only subtracts from
day-1 timestamps. -/
def subMonths (ts : Timestamp) (n : Int) : Timestamp :=
  let idx := ts.year * 12 + (ts.month - 1) - n
  Timestamp.mk (Int.fdiv idx 12) (Int.fmod idx 12 + 1) ts.day ts.tick

/-- Maximum of a timestamp series, none on an empty series (pandas max of an
empty series is NaT, and Timestamp(NaT.year, ...) raises). This is
date_series.max() of convert.py line 97. -/
def seriesMax : List Timestamp → Option Timestamp
  | [] => none
  | t :: ts => some (ts.foldl (fun a b => if Timestamp.ltB a b then b else a) t)

/-! ## Grouping

Pandas groupby iterates the groups in ascending key order; each group keeps the
original row order. The sorted distinct key list is computed with an insertion
sort (structural recursion, so concrete instances evaluate in the kernel)
followed by dedup. -/

/-- Insert an element into a list sorted by the boolean relation le. -/
def insertSorted {kappa : Type} (le : kappa → kappa → Bool) (x : kappa) :
    List kappa → List kappa
  | [] => [x]
  | y :: ys => if le x y then x :: y :: ys else y :: insertSorted le x ys

/-- Insertion sort by the boolean relation le. -/
def insertionSort {kappa : Type} (le : kappa → kappa → Bool) :
    List kappa → List kappa
  | [] => []
  | x :: xs => insertSorted le x (insertionSort le xs)

/-- Distinct keys of a pandas groupby, in ascending order. -/
def sortedKeys {kappa : Type} [DecidableEq kappa] (le : kappa → kappa → Bool)
    (l : List kappa) : List kappa :=
  (insertionSort le l).dedup

/-- Ascending order on Int keys (grouping by year). -/
def intLeB (a b : Int) : Bool := decide (a ≤ b)

/-- Ascending lexicographic order on (year, month) keys (grouping by month). -/
def pairLeB (a b : Int × Int) : Bool :=
  decide (a.1 < b.1 ∨ (a.1 = b.1 ∧ a.2 ≤ b.2))

/-! ## Splitter -/

/-- Convert.save_by_date (convert.py lines 81-119) as the list of
(file name, fragment) pairs passed to Convert.save, in call order. The rows of
the dataframe are abstract; dateOf gives the timestamp that to_datetime parses
from the date column of a row. The result is none when the method raises: for
the Last X Months branch on an empty table (Timestamp(NaT.year, ...) raises),
and for an unrecognized split_by (groupby with an empty key list raises);
convert only reaches this method with split_by among the three labels. -/
def saveByDate {Row : Type} (rows : List Row) (dateOf : Row → Timestamp)
    (split_by : String) (output_file output_type : String) (month_n : Int) :
    Option (List (String × List Row)) :=
  if split_by = "Last X Months" then
    match seriesMax (rows.map dateOf) with
    | none => none
    | some mx =>
        let cutoff := subMonths (firstOfMonth mx) month_n
        some [(output_file, rows.filter (fun r => Timestamp.ltB cutoff (dateOf r)))]
  else
    let file_name := baseFileName output_file output_type
    if split_by = "Yearly" then
      let ks := sortedKeys intLeB (rows.map (fun r => (dateOf r).year))
      some (ks.map (fun y =>
        (file_name ++ "_" ++ toString y ++ "." ++ output_type,
         rows.filter (fun r => decide ((dateOf r).year = y)))))
    else if split_by = "Monthly" then
      let ks := sortedKeys pairLeB
        (rows.map (fun r => ((dateOf r).year, (dateOf r).month)))
      some (ks.map (fun p =>
        (file_name ++ "_" ++ toString p.1 ++ "_" ++ zfill2 p.2 ++ "." ++ output_type,
         rows.filter (fun r => decide (((dateOf r).year, (dateOf r).month) = p)))))
    else none

/-- Convert.save_by_parts (convert.py lines 121-132) as the list of
(file name, fragment) pairs passed to Convert.save, in call order: part i
(0-based) is dataframe.iloc[start:end] with start = int(i * N / parts) and
end = int((i + 1) * N / parts), written to file base_part_(i+1).output_type. -/
def saveByParts {Row : Type} (rows : List Row) (parts : Nat)
    (output_file output_type : String) : List (String × List Row) :=
  let data_length := rows.length
  let file_name := baseFileName output_file output_type
  (List.range parts).map (fun i =>
    (file_name ++ "_part_" ++ toString (i + 1) ++ "." ++ output_type,
     (rows.drop (i * data_length / parts)).take
       ((i + 1) * data_length / parts - i * data_length / parts)))

/-! ## Orchestrator

Convert.convert (convert.py lines 134-167). The decision logic and the
translation of any split-path failure into the single generic invalid-split
exception are modelled; whether the chosen split path itself raises (for
example an unparseable date column, or an I/O failure while writing a
fragment) enters as an oracle boolean. -/

/-- Outcome of a convert call: the whole table written to the output path, a
split executed successfully, or the generic exception with the message about
invalid split instructions (convert.py lines 162-165). -/
inductive ConvertOutcome where
  | wroteWhole
  | splitDone
  | invalidSplit
  deriving DecidableEq, Repr

/-- The tuple self.date_splits of recognized timeframe labels. -/
def dateSplits : List String := ["Last X Months", "Monthly", "Yearly"]

/-- Python split_by in self.date_splits: only a string settings value can equal
one of the three labels. -/
def splitByInDateSplits (v : PyVal) : Bool :=
  match v with
  | PyVal.vStr s => dateSplits.contains s
  | _ => false

/-- Python date_col in dataframe.columns for a popped settings value: only a
string can name a column; the default None is never a column. -/
def dateColIn (v : PyVal) (columns : List String) : Bool :=
  match v with
  | PyVal.vStr s => columns.contains s
  | _ => false

/-- Decision logic of Convert.convert after the read: with a truthy to_split,
the date branch runs when to_split is the string date, split_by is a
recognized label and date_col is a column; otherwise the length branch runs
when to_split is the string length and int(split_by) is positive (a raising
int(...) is caught by the same handler); otherwise the bare raise of line 161
fires. Every exception inside the try block, including one raised by the
chosen branch itself, becomes the generic invalid-split outcome. A falsy
to_split writes the whole table. -/
def convertDecision (to_split split_by date_col : PyVal) (columns : List String)
    (dateRaises lengthRaises : Bool) : ConvertOutcome :=
  if truthy to_split = true then
    if to_split = PyVal.vStr "date" ∧ splitByInDateSplits split_by = true
        ∧ dateColIn date_col columns = true then
      if dateRaises then ConvertOutcome.invalidSplit else ConvertOutcome.splitDone
    else if to_split = PyVal.vStr "length" ∧ toPositiveInt split_by = true then
      if lengthRaises then ConvertOutcome.invalidSplit else ConvertOutcome.splitDone
    else ConvertOutcome.invalidSplit
  else ConvertOutcome.wroteWhole

/-! ## Settings dictionaries and the heap

Convert.convert copies self.output_settings into a fresh dict (line 139), pops
the orchestration keys from the copy (lines 141-146) and hands the copy to the
writer, which for csv output assigns the index key on it (line 78). Python
aliasing is modelled by a heap of dictionaries addressed by natural numbers, so
that the claim that the caller object is never mutated is a statement, not a
modelling artifact. -/

/-- A Python dict with string keys, as an insertion-ordered association list
with unique keys. -/
abbrev Dict : Type := List (String × PyVal)

/-- Lookup of a key. -/
def getKey? (d : Dict) (k : String) : Option PyVal :=
  match d with
  | [] => none
  | kv :: rest => if kv.1 = k then some kv.2 else getKey? rest k

/-- Python d.pop(k, default) effect on the dict: remove the entry of k. -/
def popKey (d : Dict) (k : String) : Dict :=
  match d with
  | [] => []
  | kv :: rest => if kv.1 = k then rest else kv :: popKey rest k

/-- Python d[k] = v: update in place, or append a new entry. -/
def setKey (d : Dict) (k : String) (v : PyVal) : Dict :=
  match d with
  | [] => [(k, v)]
  | kv :: rest => if kv.1 = k then (kv.1, v) :: rest else kv :: setKey rest k v

/-- The dict comprehension of line 139: a fresh dict with the same entries. -/
def dictCopy (d : Dict) : Dict := d

/-- Heap of dictionaries; an address is an index into the list. -/
structure Heap where
  dicts : List Dict

/-- Contents at an address (unused addresses read as empty). -/
def Heap.get (h : Heap) (r : Nat) : Dict := h.dicts.getD r []

/-- Overwrite the contents at an address. -/
def Heap.set (h : Heap) (r : Nat) (d : Dict) : Heap := Heap.mk (h.dicts.set r d)

/-- The effect of one convert call on the settings dictionaries, starting from
a heap with the caller object self.output_settings at address r: allocate the
copy, pop to_split, split_by, date_col and month_n from the copy, and let the
writer assign the index key on the copy (the csv branch of save; the parquet
branch leaves the dict unchanged). Returns the final heap. -/
def convertSettingsHeap (h0 : Heap) (r : Nat) (output_type : String) : Heap :=
  let n := h0.dicts.length
  let h1 := Heap.mk (h0.dicts ++ [dictCopy (h0.get r)])
  let h2 := h1.set n (popKey (h1.get n) "to_split")
  let h3 := h2.set n (popKey (h2.get n) "split_by")
  let h4 := h3.set n (popKey (h3.get n) "date_col")
  let h5 := h4.set n (popKey (h4.get n) "month_n")
  if output_type = "csv" then
    h5.set n (setKey (h5.get n) "index"
      ((getKey? (h5.get n) "index").getD (PyVal.vBool false)))
  else h5

/-! ## Concrete reader oracles used by counterexamples and witnesses -/

/-- Reader oracle whose underlying read fails with error 0 under utf-8 and
with error 1 under every other encoding. -/
def cexAttempt : String → Except Nat Bool := fun enc =>
  if enc = "utf-8" then Except.error 0 else Except.error 1

/-- Reader oracle whose underlying read fails under utf-8 and succeeds under
every other encoding, the encoding-fallback scenario. -/
def fbAttempt : String → Except Nat Bool := fun enc =>
  if enc = "utf-8" then Except.error 0 else Except.ok true

/-- Reader oracle that always fails, for the unsupported-kind witness. -/
def stubAttempt : String → Except String Nat := fun _ => Except.error "boom"

/-! # Theorems -/

/-! ## Last-dot splitting -/

/-- In a character list holding a dot, dropWhile not-dot finds the first dot:
the list splits as a dot-free head, the dot, and the remainder. -/
theorem dropWhile_first_dot : ∀ (r : List Char), '.' ∈ r →
    ∃ t d, r = t ++ '.' :: d ∧ (∀ c ∈ t, c ≠ '.')
      ∧ r.dropWhile (fun c => c != '.') = '.' :: d := by
  intro r
  induction r with
  | nil => intro h; exact absurd h (List.not_mem_nil _)
  | cons c r ih =>
    intro h
    by_cases hc : c = '.'
    · subst hc
      exact ⟨[], r, rfl, by simp, by simp [List.dropWhile_cons]⟩
    · have h2 : '.' ∈ r := by
        rcases List.mem_cons.mp h with h1 | h1
        · exact absurd h1.symm hc
        · exact h1
      obtain ⟨t, d, hrd, ht, hdw⟩ := ih h2
      refine ⟨c :: t, d, ?_, ?_, ?_⟩
      · rw [List.cons_append, ← hrd]
      · intro x hx
        rcases List.mem_cons.mp hx with h1 | h1
        · exact h1 ▸ hc
        · exact ht x h1
      · simp only [List.dropWhile_cons]
        have : (c != '.') = true := by simp [hc]
        rw [this, if_pos rfl, hdw]

/-- A string with no dot is unchanged by rsplit(".", 1)[0]. -/
theorem rsplitDot1_no_dot (s : String) (h : ¬ '.' ∈ s.toList) :
    rsplitDot1 s = s := by
  have hrev : ¬ '.' ∈ s.toList.reverse := fun hm => h (List.mem_reverse.mp hm)
  rw [rsplitDot1]
  simp only [if_neg hrev]

/-- A string with a dot splits at its last dot: it is pre, a dot, and a
dot-free suffix, and rsplit(".", 1)[0] returns pre. -/
theorem rsplitDot1_last_dot (s : String) (h : '.' ∈ s.toList) :
    ∃ pre suf : String, s = pre ++ "." ++ suf ∧ (∀ c ∈ suf.toList, c ≠ '.')
      ∧ rsplitDot1 s = pre := by
  have hr : '.' ∈ s.toList.reverse := List.mem_reverse.mpr h
  obtain ⟨t, d, hrd, ht, hdw⟩ := dropWhile_first_dot _ hr
  have hdata : s.toList = d.reverse ++ '.' :: t.reverse := by
    have h1 : s.toList = s.toList.reverse.reverse := (List.reverse_reverse _).symm
    rw [h1, hrd]
    simp
  refine ⟨String.mk d.reverse, String.mk t.reverse, ?_, ?_, ?_⟩
  · apply String.ext
    simp only [String.data_append]
    rw [List.append_assoc, List.singleton_append]
    exact hdata
  · intro c hc
    exact ht c (List.mem_reverse.mp hc)
  · rw [rsplitDot1]
    simp only [if_pos hr, hdw]
    rfl

/-! ## C8: base filename computation -/

/-- C8 counterexample: the claim says an output path containing the
output-extension substring anywhere is truncated at the last occurrence of
that substring. On the path parquet_data/out with output type parquet, the
code leaves the path unchanged (rsplit at the last dot of a dot-free string
is the identity), while truncation at the last occurrence of the substring
would return the empty prefix; the two computations disagree. -/
theorem baseFileName_not_truncated_at_substring :
    strContains "parquet_data/out" "parquet" = true
    ∧ baseFileName "parquet_data/out" "parquet" = "parquet_data/out"
    ∧ baseFileNameSpec "parquet_data/out" "parquet" = ""
    ∧ baseFileName "parquet_data/out" "parquet"
        ≠ baseFileNameSpec "parquet_data/out" "parquet" := by
  refine ⟨by decide, by decide, by decide, by decide⟩

/-- C8 (amended): the base filename is the output path unchanged when the path
does not contain the output-extension substring; when it does contain it
(a textual containment test that is not path-aware), the path is truncated at
its last dot — everything from the last dot on is dropped — and a path with
no dot at all is left unchanged. -/
theorem baseFileName_behavior (p ext : String) :
    (strContains p ext = false → baseFileName p ext = p)
    ∧ (strContains p ext = true → ¬ '.' ∈ p.toList → baseFileName p ext = p)
    ∧ (strContains p ext = true → '.' ∈ p.toList →
        ∃ pre suf : String, p = pre ++ "." ++ suf ∧ (∀ c ∈ suf.toList, c ≠ '.')
          ∧ baseFileName p ext = pre) := by
  refine ⟨?_, ?_, ?_⟩
  · intro h
    simp [baseFileName, h]
  · intro h hd
    rw [baseFileName, if_pos h]
    exact rsplitDot1_no_dot p hd
  · intro h hd
    obtain ⟨pre, suf, hsplit, hsuf, hrs⟩ := rsplitDot1_last_dot p hd
    exact ⟨pre, suf, hsplit, hsuf, by rw [baseFileName, if_pos h]; exact hrs⟩

/-- C8 witness: the ordinary case data.parquet with output type parquet is
truncated at its (only) dot, giving base data. -/
theorem baseFileName_behavior_witness :
    ∃ pre suf : String, "data.parquet" = pre ++ "." ++ suf
      ∧ (∀ c ∈ suf.toList, c ≠ '.')
      ∧ baseFileName "data.parquet" "parquet" = pre :=
  (baseFileName_behavior "data.parquet" "parquet").2.2 (by decide) (by decide)

/-! ## C2: ten rows split into three parts -/

/-- C2 counterexample: on a 10-row table split into 3 parts, the claim says
the fragment sizes are [4, 3, 3] (rows 0-3, 4-6, 7-9). The code computes
boundaries int(i*10/3) = 0, 3, 6, 10, so the sizes are [3, 3, 4]. -/
theorem saveByParts_ten_rows_cex :
    ((saveByParts (List.range 10) 3 "data.parquet" "parquet").map
        (fun fr => fr.2.length)) = [3, 3, 4]
    ∧ ((saveByParts (List.range 10) 3 "data.parquet" "parquet").map
        (fun fr => fr.2.length)) ≠ [4, 3, 3] := by
  refine ⟨by decide, by decide⟩

/-- C2 (amended): for a 10-row input split by length into 3 parts,
save_by_parts produces three fragments of sizes [3, 3, 4] — rows 0-2, 3-5
and 6-9 — written to base_part_1, base_part_2 and base_part_3 with the
output extension appended. -/
theorem saveByParts_ten_rows :
    saveByParts (List.range 10) 3 "data.parquet" "parquet" =
      [("data_part_1.parquet", [0, 1, 2]),
       ("data_part_2.parquet", [3, 4, 5]),
       ("data_part_3.parquet", [6, 7, 8, 9])] := by
  decide

/-! ## C5: unsupported kinds -/

/-- C5 counterexample: the claim says save with an unrecognized output kind
surfaces a fatal error. Convert.save has no else branch: with output kind
json it writes nothing and raises nothing, returning normally. -/
theorem save_unknown_kind_noop_cex :
    save "json" (0 : Nat) "out.json" = (Except.ok [] : Except String (List (String × Nat)))
    ∧ ¬ ∃ e : String, save "json" (0 : Nat) "out.json"
        = (Except.error e : Except String (List (String × Nat))) := by
  refine ⟨rfl, ?_⟩
  rintro ⟨e, he⟩
  rw [show save "json" (0 : Nat) "out.json"
        = (Except.ok [] : Except String (List (String × Nat))) from rfl] at he
  exact Except.noConfusion he

/-- C5 (amended): read with a kind that is neither csv nor parquet fails
immediately with the unsupported-kind error, before any read attempt; save
with an output kind that is neither parquet nor csv silently writes nothing
and raises no error (the claim's error for unsupported output kinds does not
exist in the code). -/
theorem read_unsupported_kind_save_noop {Frame eps : Type} (input_type : String)
    (encoding? : Option String) (attempt : String → Except eps Frame)
    (output_type : String) (df : Frame) (file_name : String)
    (hin1 : input_type ≠ "csv") (hin2 : input_type ≠ "parquet")
    (hout1 : output_type ≠ "parquet") (hout2 : output_type ≠ "csv") :
    read input_type encoding? attempt
        = Except.error (ReadError.unsupportedKind input_type)
    ∧ save output_type df file_name = (Except.ok [] : Except eps (List (String × Frame))) := by
  constructor
  · rw [read, if_neg]
    rintro (h | h)
    · exact hin1 h
    · exact hin2 h
  · rw [save, if_neg hout1, if_neg hout2]

/-- C5 witness: kind json is rejected by read and ignored by save. -/
theorem read_unsupported_kind_save_noop_witness :
    read "json" none stubAttempt
        = Except.error (ReadError.unsupportedKind "json")
    ∧ save "json" (0 : Nat) "out.json"
        = (Except.ok [] : Except String (List (String × Nat))) :=
  read_unsupported_kind_save_noop "json" none stubAttempt "json" 0 "out.json"
    (by decide) (by decide) (by decide) (by decide)

/-! ## C3: encoding fallback -/

/-- C3 counterexample: the claim says that when the utf-8 attempt and the
ISO-8859-1 retry both fail, the original failure is propagated. With an
oracle failing with error 0 under utf-8 and error 1 under ISO-8859-1, read
propagates error 1 — the retry's failure — not the original error 0. -/
theorem read_retry_propagates_second_error_cex :
    cexAttempt "utf-8" = Except.error 0
    ∧ cexAttempt "ISO-8859-1" = Except.error 1
    ∧ read "csv" none cexAttempt = Except.error (ReadError.failed 1)
    ∧ read "csv" none cexAttempt ≠ Except.error (ReadError.failed 0) := by
  refine ⟨rfl, rfl, rfl, ?_⟩
  intro h
  rw [show read "csv" none cexAttempt = Except.error (ReadError.failed 1) from rfl] at h
  have h2 : (ReadError.failed 1 : ReadError Nat) = ReadError.failed 0 := by
    injection h
  have h3 : (1 : Nat) = 0 := by injection h2
  exact Nat.noConfusion h3

/-- C3 (amended): on csv input whose configured encoding is the default
utf-8, a failed first read is retried exactly once with ISO-8859-1: if the
retry succeeds the dataframe is returned with no error, and if the retry
fails the retry's failure (not the original) is propagated. When the
configured encoding is not the default, the original failure is propagated
with no retry. -/
theorem read_encoding_fallback {Frame eps : Type} (encoding? : Option String)
    (attempt : String → Except eps Frame) (e : eps) :
    (encoding?.getD "utf-8" = "utf-8" → attempt "utf-8" = Except.error e →
        read "csv" encoding? attempt =
          (match attempt "ISO-8859-1" with
           | Except.ok df => Except.ok df
           | Except.error e2 => Except.error (ReadError.failed e2)))
    ∧ (∀ df, encoding?.getD "utf-8" = "utf-8" → attempt "utf-8" = Except.error e →
        attempt "ISO-8859-1" = Except.ok df →
        read "csv" encoding? attempt = Except.ok df)
    ∧ (encoding?.getD "utf-8" ≠ "utf-8" →
        attempt (encoding?.getD "utf-8") = Except.error e →
        read "csv" encoding? attempt = Except.error (ReadError.failed e)) := by
  refine ⟨?_, ?_, ?_⟩
  · intro henc hfail
    simp [read, henc, hfail]
  · intro df henc hfail hok
    simp [read, henc, hfail, hok]
  · intro henc hfail
    simp [read, henc, hfail]

/-- C3 witness: a csv read failing under utf-8 but succeeding under
ISO-8859-1 is read successfully with no error raised. -/
theorem read_encoding_fallback_witness :
    fbAttempt "utf-8" = Except.error 0
    ∧ read "csv" none fbAttempt = Except.ok true :=
  ⟨rfl, (read_encoding_fallback none fbAttempt 0).2.1 true rfl rfl rfl⟩

/-! ## C4: convert decision logic -/

/-- The length-branch test holds exactly when int(split_by) yields a strictly
positive integer. -/
theorem toPositiveInt_iff (v : PyVal) :
    toPositiveInt v = true ↔ ∃ n : Int, pyInt? v = some n ∧ 0 < n := by
  rw [toPositiveInt]
  cases h : pyInt? v with
  | none => simp
  | some n => simp

/-- C4: with a truthy to_split, convert raises the single generic
invalid-split failure exactly when the chosen split path's preconditions are
unmet (to_split is date but split_by is not a recognized label or date_col is
not a column; to_split is length but split_by does not convert to a positive
integer; or to_split is some other truthy value) or the chosen split path
itself raises; with a falsy to_split, convert writes the whole table. -/
theorem convert_invalid_split_iff (to_split split_by date_col : PyVal)
    (columns : List String) (dateRaises lengthRaises : Bool) :
    (convertDecision to_split split_by date_col columns dateRaises lengthRaises
        = ConvertOutcome.invalidSplit
      ↔ truthy to_split = true
        ∧ ((to_split = PyVal.vStr "date"
              ∧ ¬ (splitByInDateSplits split_by = true
                    ∧ dateColIn date_col columns = true))
          ∨ (to_split = PyVal.vStr "length"
              ∧ ¬ ∃ n : Int, pyInt? split_by = some n ∧ 0 < n)
          ∨ (to_split ≠ PyVal.vStr "date" ∧ to_split ≠ PyVal.vStr "length")
          ∨ (to_split = PyVal.vStr "date" ∧ splitByInDateSplits split_by = true
              ∧ dateColIn date_col columns = true ∧ dateRaises = true)
          ∨ (to_split = PyVal.vStr "length"
              ∧ (∃ n : Int, pyInt? split_by = some n ∧ 0 < n)
              ∧ lengthRaises = true)))
    ∧ (truthy to_split = false →
        convertDecision to_split split_by date_col columns dateRaises lengthRaises
          = ConvertOutcome.wroteWhole) := by
  have hdl : PyVal.vStr "date" ≠ PyVal.vStr "length" := by decide
  constructor
  · rw [convertDecision]
    split_ifs with h0 h1 h2 h3 h4
    · exact iff_of_true rfl
        ⟨h0, Or.inr (Or.inr (Or.inr (Or.inl ⟨h1.1, h1.2.1, h1.2.2, h2⟩)))⟩
    · refine iff_of_false (by simp) ?_
      rintro ⟨-, ⟨-, hb⟩ | ⟨ha, -⟩ | ⟨ha, -⟩ | ⟨-, -, -, hrs⟩ | ⟨ha, -, -⟩⟩
      · exact hb ⟨h1.2.1, h1.2.2⟩
      · exact hdl (h1.1.symm.trans ha)
      · exact ha h1.1
      · exact h2 hrs
      · exact hdl (h1.1.symm.trans ha)
    · exact iff_of_true rfl
        ⟨h0, Or.inr (Or.inr (Or.inr (Or.inr
          ⟨h3.1, (toPositiveInt_iff split_by).mp h3.2, h4⟩)))⟩
    · refine iff_of_false (by simp) ?_
      rintro ⟨-, ⟨ha, -⟩ | ⟨-, hb⟩ | ⟨-, hnl⟩ | ⟨ha, -, -, -⟩ | ⟨-, -, hrs⟩⟩
      · exact hdl (ha.symm.trans h3.1)
      · exact hb ((toPositiveInt_iff split_by).mp h3.2)
      · exact hnl h3.1
      · exact hdl (ha.symm.trans h3.1)
      · exact h4 hrs
    · refine iff_of_true rfl ⟨h0, ?_⟩
      by_cases hd : to_split = PyVal.vStr "date"
      · exact Or.inl ⟨hd, fun hbc => h1 ⟨hd, hbc.1, hbc.2⟩⟩
      · by_cases hl : to_split = PyVal.vStr "length"
        · refine Or.inr (Or.inl ⟨hl, ?_⟩)
          rintro ⟨n, hn, hp⟩
          exact h3 ⟨hl, (toPositiveInt_iff split_by).mpr ⟨n, hn, hp⟩⟩
        · exact Or.inr (Or.inr (Or.inl ⟨hd, hl⟩))
    · exact iff_of_false (by simp) (fun h => h0 h.1)
  · intro hf
    rw [convertDecision, if_neg]
    rw [hf]
    exact Bool.false_ne_true

/-- C4 witness: an unrecognized truthy to_split yields the generic failure,
and a falsy to_split writes the whole table. -/
theorem convert_invalid_split_iff_witness :
    convertDecision (PyVal.vStr "foo") (PyVal.vStr "3") PyVal.vNone [] false false
        = ConvertOutcome.invalidSplit
    ∧ convertDecision PyVal.vNone (PyVal.vStr "3") PyVal.vNone [] false false
        = ConvertOutcome.wroteWhole :=
  ⟨(convert_invalid_split_iff (PyVal.vStr "foo") (PyVal.vStr "3") PyVal.vNone
        [] false false).1.mpr
      ⟨by decide, Or.inr (Or.inr (Or.inl ⟨by decide, by decide⟩))⟩,
   (convert_invalid_split_iff PyVal.vNone (PyVal.vStr "3") PyVal.vNone
        [] false false).2 rfl⟩

/-! ## C9: caller settings are never mutated -/

/-- Writing to one heap address leaves the contents of every other address
unchanged. -/
theorem heapGet_set_ne (h : Heap) (i j : Nat) (d : Dict) (hne : i ≠ j) :
    (h.set i d).get j = h.get j := by
  simp [Heap.set, Heap.get, List.getD_eq_getElem?_getD, List.getElem?_set_ne hne]

/-- Allocating a fresh dictionary at the end of the heap leaves the contents
of every existing address unchanged. -/
theorem heapGet_alloc (h : Heap) (j : Nat) (d : Dict) (hj : j < h.dicts.length) :
    (Heap.mk (h.dicts ++ [d])).get j = h.get j := by
  simp [Heap.get, List.getD_eq_getElem?_getD, List.getElem?_append_left hj]

/-- C9: the caller-supplied output_settings dictionary is unchanged by a
convert call: convert pops to_split, split_by, date_col and month_n from a
fresh copy, and the writer's csv-branch assignment of the index key also hits
only the copy, so every lookup on the caller's object reads as before. -/
theorem convert_preserves_caller_settings (h0 : Heap) (r : Nat)
    (output_type : String) (hr : r < h0.dicts.length) :
    (convertSettingsHeap h0 r output_type).get r = h0.get r
    ∧ getKey? ((convertSettingsHeap h0 r output_type).get r) "to_split"
        = getKey? (h0.get r) "to_split"
    ∧ getKey? ((convertSettingsHeap h0 r output_type).get r) "split_by"
        = getKey? (h0.get r) "split_by"
    ∧ getKey? ((convertSettingsHeap h0 r output_type).get r) "date_col"
        = getKey? (h0.get r) "date_col"
    ∧ getKey? ((convertSettingsHeap h0 r output_type).get r) "month_n"
        = getKey? (h0.get r) "month_n"
    ∧ getKey? ((convertSettingsHeap h0 r output_type).get r) "index"
        = getKey? (h0.get r) "index" := by
  have hne : h0.dicts.length ≠ r := by omega
  have hmain : (convertSettingsHeap h0 r output_type).get r = h0.get r := by
    simp only [convertSettingsHeap]
    by_cases hcsv : output_type = "csv"
    · rw [if_pos hcsv, heapGet_set_ne _ _ _ _ hne, heapGet_set_ne _ _ _ _ hne,
          heapGet_set_ne _ _ _ _ hne, heapGet_set_ne _ _ _ _ hne,
          heapGet_set_ne _ _ _ _ hne]
      exact heapGet_alloc h0 r _ hr
    · rw [if_neg hcsv, heapGet_set_ne _ _ _ _ hne, heapGet_set_ne _ _ _ _ hne,
          heapGet_set_ne _ _ _ _ hne, heapGet_set_ne _ _ _ _ hne]
      exact heapGet_alloc h0 r _ hr
  exact ⟨hmain, by rw [hmain], by rw [hmain], by rw [hmain], by rw [hmain],
    by rw [hmain]⟩

/-- C9 witness: a concrete one-dictionary heap with csv output; the caller
object still holds its original entries after the convert call. -/
theorem convert_preserves_caller_settings_witness :
    (convertSettingsHeap (Heap.mk [[("to_split", PyVal.vStr "length"),
        ("split_by", PyVal.vInt 3), ("index", PyVal.vBool true)]]) 0 "csv").get 0
      = [("to_split", PyVal.vStr "length"), ("split_by", PyVal.vInt 3),
         ("index", PyVal.vBool true)] :=
  (convert_preserves_caller_settings (Heap.mk [[("to_split", PyVal.vStr "length"),
      ("split_by", PyVal.vInt 3), ("index", PyVal.vBool true)]]) 0 "csv"
    (by decide)).1

/-! ## C1, C10: balanced partition arithmetic -/

/-- The part boundaries i * N / p are monotone in the part index. -/
theorem partBound_mono (N p : Nat) {i j : Nat} (h : i ≤ j) :
    i * N / p ≤ j * N / p :=
  Nat.div_le_div_right (Nat.mul_le_mul_right N h)

/-- Each part size floor((i+1)N/p) - floor(iN/p) is either floor(N/p) or
floor(N/p) + 1. -/
theorem partSize_cases (N p i : Nat) (hp : 0 < p) :
    (i + 1) * N / p - i * N / p = N / p
    ∨ (i + 1) * N / p - i * N / p = N / p + 1 := by
  have hmono : i * N / p ≤ (i + 1) * N / p := partBound_mono N p (Nat.le_succ i)
  have h1 : (i + 1) * N = i * N + N := by ring
  have h2 : (i * N + N) / p
      = i * N / p + N / p + if p ≤ i * N % p + N % p then 1 else 0 :=
    Nat.add_div hp
  rw [h1]
  rw [h1] at hmono
  by_cases hc : p ≤ i * N % p + N % p
  · rw [if_pos hc] at h2
    omega
  · rw [if_neg hc] at h2
    omega

/-- The part sizes of the first k parts sum to the k-th boundary. -/
theorem partSize_sum (N p : Nat) :
    ∀ k, ((List.range k).map (fun i => (i + 1) * N / p - i * N / p)).sum
      = k * N / p := by
  intro k
  induction k with
  | zero => simp
  | succ k ih =>
    rw [List.range_succ, List.map_append, List.sum_append]
    have hmono : k * N / p ≤ (k + 1) * N / p := partBound_mono N p (Nat.le_succ k)
    simp only [List.map_cons, List.map_nil, List.sum_cons, List.sum_nil]
    omega

/-- Joining the first k parts of the row list recovers its prefix up to the
k-th boundary. -/
theorem partSeg_join {Row : Type} (rows : List Row) (p : Nat) :
    ∀ k, (((List.range k).map (fun i =>
        (rows.drop (i * rows.length / p)).take
          ((i + 1) * rows.length / p - i * rows.length / p))).flatten)
      = rows.take (k * rows.length / p) := by
  intro k
  induction k with
  | zero => simp
  | succ k ih =>
    rw [List.range_succ, List.map_append, List.flatten_append]
    simp only [List.map_cons, List.map_nil, List.flatten_cons, List.flatten_nil,
      List.append_nil]
    rw [ih]
    have hmono : k * rows.length / p ≤ (k + 1) * rows.length / p :=
      partBound_mono rows.length p (Nat.le_succ k)
    have hsplit : (k + 1) * rows.length / p
        = k * rows.length / p
          + ((k + 1) * rows.length / p - k * rows.length / p) := by omega
    rw [hsplit, List.take_add]
    have harg : k * rows.length / p
          + ((k + 1) * rows.length / p - k * rows.length / p)
          - k * rows.length / p
        = (k + 1) * rows.length / p - k * rows.length / p := by omega
    rw [harg]

/-- With i < p, the i-th part boundary stays at or below the row count. -/
theorem partBound_le_length (N p i : Nat) (hp : 0 < p) (hi : i ≤ p) :
    i * N / p ≤ N := by
  have h1 : i * N / p ≤ p * N / p := partBound_mono N p hi
  rw [Nat.mul_div_cancel_left N hp] at h1
  exact h1

/-- The length of the i-th fragment is exactly its boundary difference. -/
theorem partSeg_length {Row : Type} (rows : List Row) (p i : Nat) (hp : 0 < p)
    (hi : i < p) :
    ((rows.drop (i * rows.length / p)).take
        ((i + 1) * rows.length / p - i * rows.length / p)).length
      = (i + 1) * rows.length / p - i * rows.length / p := by
  have h1 : (i + 1) * rows.length / p ≤ rows.length :=
    partBound_le_length rows.length p (i + 1) hp hi
  have h2 : i * rows.length / p ≤ (i + 1) * rows.length / p :=
    partBound_mono rows.length p (Nat.le_succ i)
  simp only [List.length_take, List.length_drop]
  omega

/-- C1: for every table with N rows and positive part count, save_by_parts
produces exactly n_parts fragments at the claimed boundaries
start = floor(i*N/n), end = floor((i+1)*N/n); the fragments concatenate back
to the original rows in order (so the ranges are contiguous, non-overlapping,
monotonically increasing, and every row lies in exactly one fragment), the
fragment sizes sum to N, each size is floor(N/n) or floor(N/n)+1, any two
sizes differ by at most one, and the boundaries are monotone. -/
theorem saveByParts_partition {Row : Type} (rows : List Row) (parts : Nat)
    (output_file output_type : String) (hp : 0 < parts) :
    (saveByParts rows parts output_file output_type).length = parts
    ∧ saveByParts rows parts output_file output_type
        = (List.range parts).map (fun i =>
            (baseFileName output_file output_type ++ "_part_" ++ toString (i + 1)
               ++ "." ++ output_type,
             (rows.drop (i * rows.length / parts)).take
               ((i + 1) * rows.length / parts - i * rows.length / parts)))
    ∧ ((saveByParts rows parts output_file output_type).map
        (fun fr => fr.2)).flatten = rows
    ∧ ((saveByParts rows parts output_file output_type).map
        (fun fr => fr.2.length)).sum = rows.length
    ∧ (∀ sz ∈ (saveByParts rows parts output_file output_type).map
          (fun fr => fr.2.length),
        sz = rows.length / parts ∨ sz = rows.length / parts + 1)
    ∧ (∀ sz1 ∈ (saveByParts rows parts output_file output_type).map
          (fun fr => fr.2.length),
       ∀ sz2 ∈ (saveByParts rows parts output_file output_type).map
          (fun fr => fr.2.length),
        sz1 ≤ sz2 + 1)
    ∧ (∀ i j : Nat, i ≤ j → i * rows.length / parts ≤ j * rows.length / parts) := by
  have hdef : saveByParts rows parts output_file output_type
      = (List.range parts).map (fun i =>
          (baseFileName output_file output_type ++ "_part_" ++ toString (i + 1)
             ++ "." ++ output_type,
           (rows.drop (i * rows.length / parts)).take
             ((i + 1) * rows.length / parts - i * rows.length / parts))) := rfl
  have hsizes : ∀ sz ∈ (saveByParts rows parts output_file output_type).map
      (fun fr => fr.2.length),
      sz = rows.length / parts ∨ sz = rows.length / parts + 1 := by
    intro sz hsz
    rw [hdef, List.map_map, List.mem_map] at hsz
    obtain ⟨i, hi, hval⟩ := hsz
    rw [List.mem_range] at hi
    have hlen := partSeg_length rows parts i hp hi
    have hcases := partSize_cases rows.length parts i hp
    simp only [Function.comp] at hval
    rw [← hval]
    rw [hlen]
    exact hcases
  refine ⟨?_, hdef, ?_, ?_, hsizes, ?_, ?_⟩
  · rw [hdef]
    simp
  · rw [hdef, List.map_map]
    have hmapeq : ((List.range parts).map
        ((fun fr : String × List Row => fr.2) ∘ (fun i =>
          (baseFileName output_file output_type ++ "_part_" ++ toString (i + 1)
             ++ "." ++ output_type,
           (rows.drop (i * rows.length / parts)).take
             ((i + 1) * rows.length / parts - i * rows.length / parts)))))
        = (List.range parts).map (fun i =>
            (rows.drop (i * rows.length / parts)).take
              ((i + 1) * rows.length / parts - i * rows.length / parts)) := rfl
    rw [hmapeq, partSeg_join rows parts parts, Nat.mul_div_cancel_left _ hp,
      List.take_length]
  · rw [hdef, List.map_map]
    have hmapeq : ((List.range parts).map
        ((fun fr : String × List Row => fr.2.length) ∘ (fun i =>
          (baseFileName output_file output_type ++ "_part_" ++ toString (i + 1)
             ++ "." ++ output_type,
           (rows.drop (i * rows.length / parts)).take
             ((i + 1) * rows.length / parts - i * rows.length / parts)))))
        = (List.range parts).map (fun i =>
            ((rows.drop (i * rows.length / parts)).take
              ((i + 1) * rows.length / parts - i * rows.length / parts)).length) := rfl
    rw [hmapeq]
    have hcongr : (List.range parts).map (fun i =>
          ((rows.drop (i * rows.length / parts)).take
            ((i + 1) * rows.length / parts - i * rows.length / parts)).length)
        = (List.range parts).map (fun i =>
            (i + 1) * rows.length / parts - i * rows.length / parts) := by
      apply List.map_congr_left
      intro i hi
      exact partSeg_length rows parts i hp (List.mem_range.mp hi)
    rw [hcongr, partSize_sum rows.length parts parts,
      Nat.mul_div_cancel_left _ hp]
  · intro sz1 h1 sz2 h2
    rcases hsizes sz1 h1 with h | h <;> rcases hsizes sz2 h2 with h2c | h2c <;> omega
  · intro i j hij
    exact partBound_mono rows.length parts hij

/-- C1 witness: the 10-row, 3-part instance; the fragment sizes sum to the
row count. -/
theorem saveByParts_partition_witness :
    ((saveByParts (List.range 10) 3 "data.parquet" "parquet").map
        (fun fr => fr.2.length)).sum = (List.range 10).length :=
  (saveByParts_partition (List.range 10) 3 "data.parquet" "parquet"
    (by decide)).2.2.2.1

/-- In a list of naturals that are each 0 or 1, the number of ones is the sum,
the number of zeros is the length minus the sum, and the sum is at most the
length. -/
theorem count_zero_one (l : List Nat) (hl : ∀ x ∈ l, x = 0 ∨ x = 1) :
    l.countP (fun x => decide (x = 1)) = l.sum
    ∧ l.countP (fun x => decide (x = 0)) = l.length - l.sum
    ∧ l.sum ≤ l.length := by
  induction l with
  | nil => simp
  | cons a l ih =>
    have ha := hl a (List.mem_cons_self a l)
    obtain ⟨ih1, ih2, ih3⟩ := ih (fun x hx => hl x (List.mem_cons_of_mem a hx))
    rcases ha with ha | ha <;>
      simp [List.countP_cons, ha, ih1, ih2, List.sum_cons] <;> omega

/-- C10: with more parts than rows, save_by_parts still emits exactly n_parts
(file, fragment) pairs: every fragment has zero or one row, exactly N of them
hold one row, the remaining n_parts - N are empty, a fragment is empty exactly
when its start boundary equals its end boundary, and every part index i gets
its own base_part_(i+1) file. -/
theorem saveByParts_excess_parts {Row : Type} (rows : List Row) (parts : Nat)
    (output_file output_type : String) (h : rows.length < parts) :
    (saveByParts rows parts output_file output_type).length = parts
    ∧ (∀ fr ∈ saveByParts rows parts output_file output_type,
        fr.2.length = 0 ∨ fr.2.length = 1)
    ∧ (saveByParts rows parts output_file output_type).countP
        (fun fr => decide (fr.2.length = 1)) = rows.length
    ∧ (saveByParts rows parts output_file output_type).countP
        (fun fr => decide (fr.2.length = 0)) = parts - rows.length
    ∧ (∀ i ∈ List.range parts,
        ((rows.drop (i * rows.length / parts)).take
            ((i + 1) * rows.length / parts - i * rows.length / parts)) = []
          ↔ i * rows.length / parts = (i + 1) * rows.length / parts)
    ∧ (saveByParts rows parts output_file output_type).map (fun fr => fr.1)
        = (List.range parts).map (fun i =>
            baseFileName output_file output_type ++ "_part_" ++ toString (i + 1)
              ++ "." ++ output_type) := by
  have hp : 0 < parts := Nat.lt_of_le_of_lt (Nat.zero_le _) h
  have hq : rows.length / parts = 0 := Nat.div_eq_of_lt h
  have hsz01 : ∀ fr ∈ saveByParts rows parts output_file output_type,
      fr.2.length = 0 ∨ fr.2.length = 1 := by
    intro fr hfr
    rw [saveByParts, List.mem_map] at hfr
    obtain ⟨i, hi, hval⟩ := hfr
    rw [List.mem_range] at hi
    have hlen := partSeg_length rows parts i hp hi
    have hcases := partSize_cases rows.length parts i hp
    rw [← hval]
    simp only
    rw [hlen, hq] at *
    exact hcases
  have hsum : ((saveByParts rows parts output_file output_type).map
      (fun fr => fr.2.length)).sum = rows.length := by
    rw [saveByParts, List.map_map]
    have hmapeq : ((List.range parts).map
        ((fun fr : String × List Row => fr.2.length) ∘ (fun i =>
          (baseFileName output_file output_type ++ "_part_" ++ toString (i + 1)
             ++ "." ++ output_type,
           (rows.drop (i * rows.length / parts)).take
             ((i + 1) * rows.length / parts - i * rows.length / parts)))))
        = (List.range parts).map (fun i =>
            ((rows.drop (i * rows.length / parts)).take
              ((i + 1) * rows.length / parts - i * rows.length / parts)).length) := rfl
    rw [hmapeq]
    have hcongr : (List.range parts).map (fun i =>
          ((rows.drop (i * rows.length / parts)).take
            ((i + 1) * rows.length / parts - i * rows.length / parts)).length)
        = (List.range parts).map (fun i =>
            (i + 1) * rows.length / parts - i * rows.length / parts) := by
      apply List.map_congr_left
      intro i hi
      exact partSeg_length rows parts i hp (List.mem_range.mp hi)
    rw [hcongr, partSize_sum rows.length parts parts,
      Nat.mul_div_cancel_left _ hp]
  have hlensum : ((saveByParts rows parts output_file output_type).map
      (fun fr => fr.2.length)).length = parts := by
    rw [saveByParts]
    simp
  have hall01 : ∀ x ∈ (saveByParts rows parts output_file output_type).map
      (fun fr => fr.2.length), x = 0 ∨ x = 1 := by
    intro x hx
    rw [List.mem_map] at hx
    obtain ⟨fr, hfr, hval⟩ := hx
    rw [← hval]
    exact hsz01 fr hfr
  obtain ⟨hc1, hc0, -⟩ := count_zero_one _ hall01
  rw [hsum] at hc1
  rw [hsum, hlensum] at hc0
  refine ⟨by rw [saveByParts]; simp, hsz01, ?_, ?_, ?_, by rw [saveByParts]; simp⟩
  · rw [← hc1, List.countP_map]
    rfl
  · rw [← hc0, List.countP_map]
    rfl
  · intro i hi
    have hlen := partSeg_length rows parts i hp (List.mem_range.mp hi)
    have hmono : i * rows.length / parts ≤ (i + 1) * rows.length / parts :=
      partBound_mono rows.length parts (Nat.le_succ i)
    constructor
    · intro hnil
      rw [hnil] at hlen
      simp at hlen
      omega
    · intro heq
      rw [← List.length_eq_zero]
      omega

/-- C10 witness: two rows split into five parts; exactly two singleton
fragments and three empty ones. -/
theorem saveByParts_excess_parts_witness :
    (saveByParts (List.range 2) 5 "data.parquet" "parquet").countP
        (fun fr => decide (fr.2.length = 1)) = (List.range 2).length :=
  (saveByParts_excess_parts (List.range 2) 5 "data.parquet" "parquet"
    (by decide)).2.2.1

/-! ## C6: Last X Months -/

/-- The boolean timestamp comparison agrees with the lexicographic order on
(year, month, day, tick). -/
theorem ltB_iff (a b : Timestamp) :
    Timestamp.ltB a b = true ↔
      (a.year < b.year ∨ (a.year = b.year ∧ (a.month < b.month
        ∨ (a.month = b.month ∧ (a.day < b.day
        ∨ (a.day = b.day ∧ a.tick < b.tick)))))) := by
  rw [Timestamp.ltB]
  split_ifs <;> simp <;> omega

/-- The boolean timestamp comparison is false exactly when the lexicographic
order does not hold. -/
theorem ltB_false_iff (a b : Timestamp) :
    Timestamp.ltB a b = false ↔
      ¬ (a.year < b.year ∨ (a.year = b.year ∧ (a.month < b.month
        ∨ (a.month = b.month ∧ (a.day < b.day
        ∨ (a.day = b.day ∧ a.tick < b.tick)))))) := by
  rw [← ltB_iff]
  cases Timestamp.ltB a b <;> simp

/-- The comparison is irreflexive. -/
theorem ltB_irrefl (a : Timestamp) : Timestamp.ltB a a = false := by
  rw [ltB_false_iff]
  omega

/-- The comparison is asymmetric. -/
theorem ltB_asymm (a b : Timestamp) (h : Timestamp.ltB a b = true) :
    Timestamp.ltB b a = false := by
  rw [ltB_iff] at h
  rw [ltB_false_iff]
  omega

/-- Not-less-than is transitive. -/
theorem ltB_false_trans (a b c : Timestamp) (h1 : Timestamp.ltB a b = false)
    (h2 : Timestamp.ltB b c = false) : Timestamp.ltB a c = false := by
  rw [ltB_false_iff] at h1 h2 ⊢
  omega

/-- The fold inside seriesMax returns the initial value or a list element, is
at least the initial value, and is at least every list element. -/
theorem foldlMax_spec (l : List Timestamp) : ∀ init : Timestamp,
    (l.foldl (fun a b => if Timestamp.ltB a b then b else a) init = init
      ∨ l.foldl (fun a b => if Timestamp.ltB a b then b else a) init ∈ l)
    ∧ Timestamp.ltB (l.foldl (fun a b => if Timestamp.ltB a b then b else a) init)
        init = false
    ∧ ∀ x ∈ l, Timestamp.ltB
        (l.foldl (fun a b => if Timestamp.ltB a b then b else a) init) x = false := by
  induction l with
  | nil =>
    intro init
    exact ⟨Or.inl rfl, ltB_irrefl init, fun x hx => absurd hx (List.not_mem_nil x)⟩
  | cons b l ih =>
    intro init
    simp only [List.foldl_cons]
    obtain ⟨hmem, hinit, hall⟩ := ih (if Timestamp.ltB init b then b else init)
    have hstep_init : Timestamp.ltB (if Timestamp.ltB init b then b else init)
        init = false := by
      by_cases hc : Timestamp.ltB init b = true
      · rw [if_pos hc]
        exact ltB_asymm init b hc
      · rw [if_neg hc]
        exact ltB_irrefl init
    have hstep_b : Timestamp.ltB (if Timestamp.ltB init b then b else init)
        b = false := by
      by_cases hc : Timestamp.ltB init b = true
      · rw [if_pos hc]
        exact ltB_irrefl b
      · rw [if_neg hc]
        exact Bool.eq_false_iff.mpr hc
    refine ⟨?_, ?_, ?_⟩
    · rcases hmem with hm | hm
      · rw [hm]
        by_cases hc : Timestamp.ltB init b = true
        · rw [if_pos hc]
          exact Or.inr (List.mem_cons_self b l)
        · rw [if_neg hc]
          exact Or.inl rfl
      · exact Or.inr (List.mem_cons_of_mem b hm)
    · exact ltB_false_trans _ _ _ hinit hstep_init
    · intro x hx
      rcases List.mem_cons.mp hx with hxb | hxl
      · rw [hxb]
        exact ltB_false_trans _ _ _ hinit hstep_b
      · exact hall x hxl

/-- C6: on a table with at least one row, the Last X Months split computes
the maximum timestamp of the parsed date column (an element of the column
that no element exceeds), truncates it to the first of its month, subtracts
month_n months, keeps exactly the rows strictly greater than that cutoff,
and writes exactly one file at the original, unmodified output path. -/
theorem saveByDate_last_months {Row : Type} (rows : List Row)
    (dateOf : Row → Timestamp) (output_file output_type : String)
    (month_n : Int) (h : rows ≠ []) :
    ∃ mx : Timestamp,
      seriesMax (rows.map dateOf) = some mx
      ∧ mx ∈ rows.map dateOf
      ∧ (∀ r ∈ rows, Timestamp.ltB mx (dateOf r) = false)
      ∧ saveByDate rows dateOf "Last X Months" output_file output_type month_n
          = some [(output_file,
              rows.filter (fun r =>
                Timestamp.ltB (subMonths (firstOfMonth mx) month_n) (dateOf r)))] := by
  cases rows with
  | nil => exact absurd rfl h
  | cons r0 rs =>
    obtain ⟨hmem, hinit, hall⟩ := foldlMax_spec (rs.map dateOf) (dateOf r0)
    refine ⟨(rs.map dateOf).foldl
        (fun a b => if Timestamp.ltB a b then b else a) (dateOf r0),
      rfl, ?_, ?_, rfl⟩
    · rcases hmem with hm | hm
      · rw [hm, List.map_cons]
        exact List.mem_cons_self _ _
      · rw [List.map_cons]
        exact List.mem_cons_of_mem _ hm
    · intro r hr
      rcases List.mem_cons.mp hr with hr0 | hrs
      · rw [hr0]
        exact hinit
      · exact hall (dateOf r) (List.mem_map_of_mem dateOf hrs)

/-- C6 witness: a three-row table whose latest date is 2024-05-10; with
month_n = 1 the cutoff is 2024-04-01 and only the strictly later rows stay,
in one file at the unmodified output path. -/
theorem saveByDate_last_months_witness :
    ∃ mx : Timestamp,
      seriesMax ([Timestamp.mk 2024 5 10 0, Timestamp.mk 2023 3 1 0,
          Timestamp.mk 2024 4 30 1].map id) = some mx
      ∧ mx ∈ [Timestamp.mk 2024 5 10 0, Timestamp.mk 2023 3 1 0,
          Timestamp.mk 2024 4 30 1].map id
      ∧ (∀ r ∈ [Timestamp.mk 2024 5 10 0, Timestamp.mk 2023 3 1 0,
          Timestamp.mk 2024 4 30 1], Timestamp.ltB mx (id r) = false)
      ∧ saveByDate [Timestamp.mk 2024 5 10 0, Timestamp.mk 2023 3 1 0,
            Timestamp.mk 2024 4 30 1] id "Last X Months" "d.parquet" "parquet" 1
          = some [("d.parquet",
              [Timestamp.mk 2024 5 10 0, Timestamp.mk 2023 3 1 0,
                Timestamp.mk 2024 4 30 1].filter (fun r =>
                Timestamp.ltB (subMonths (firstOfMonth mx) 1) (id r)))] :=
  saveByDate_last_months
    [Timestamp.mk 2024 5 10 0, Timestamp.mk 2023 3 1 0, Timestamp.mk 2024 4 30 1]
    id "d.parquet" "parquet" 1 (by decide)

/-! ## C7: Yearly and Monthly grouping -/

/-- Membership in an insertion step. -/
theorem mem_insertSorted {kappa : Type} (le : kappa → kappa → Bool) (x a : kappa) :
    ∀ l : List kappa, a ∈ insertSorted le x l ↔ a = x ∨ a ∈ l := by
  intro l
  induction l with
  | nil => simp [insertSorted]
  | cons y ys ih =>
    rw [insertSorted]
    by_cases hc : le x y = true
    · rw [if_pos hc]
      simp [List.mem_cons]
    · rw [if_neg hc]
      simp [List.mem_cons, ih]
      tauto

/-- Insertion sort preserves membership. -/
theorem mem_insertionSort {kappa : Type} (le : kappa → kappa → Bool) :
    ∀ (l : List kappa) (a : kappa), a ∈ insertionSort le l ↔ a ∈ l := by
  intro l
  induction l with
  | nil => intro a; simp [insertionSort]
  | cons x xs ih =>
    intro a
    rw [insertionSort, mem_insertSorted, List.mem_cons, ih]

/-- The groupby key list holds no duplicates. -/
theorem sortedKeys_nodup {kappa : Type} [DecidableEq kappa]
    (le : kappa → kappa → Bool) (l : List kappa) : (sortedKeys le l).Nodup :=
  List.nodup_dedup _

/-- The groupby key list holds exactly the keys occurring in the input. -/
theorem mem_sortedKeys {kappa : Type} [DecidableEq kappa]
    (le : kappa → kappa → Bool) (l : List kappa) (a : kappa) :
    a ∈ sortedKeys le l ↔ a ∈ l := by
  rw [sortedKeys, List.mem_dedup, mem_insertionSort]

/-- Concatenating, over a duplicate-free key list covering every row's key,
the rows filtered to each key yields a permutation of the original rows. -/
theorem flatten_groups_perm {Row kappa : Type} [DecidableEq kappa]
    (keyOf : Row → kappa) :
    ∀ ks : List kappa, ks.Nodup → ∀ rows : List Row,
      (∀ r ∈ rows, keyOf r ∈ ks) →
      ((ks.map (fun k => rows.filter (fun r => decide (keyOf r = k)))).flatten).Perm
        rows := by
  intro ks
  induction ks with
  | nil =>
    intro _ rows hcov
    have hrows : rows = [] := by
      cases rows with
      | nil => rfl
      | cons r rs => exact absurd (hcov r (List.mem_cons_self r rs)) (List.not_mem_nil _)
    rw [hrows]
    simp
  | cons k ks ih =>
    intro hnd rows hcov
    obtain ⟨hknotin, hnd2⟩ := List.nodup_cons.mp hnd
    simp only [List.map_cons, List.flatten_cons]
    have hfilters : (ks.map (fun k2 => rows.filter (fun r => decide (keyOf r = k2))))
        = ks.map (fun k2 =>
            (rows.filter (fun r => ! decide (keyOf r = k))).filter
              (fun r => decide (keyOf r = k2))) := by
      apply List.map_congr_left
      intro k2 hk2
      rw [List.filter_filter]
      have hne : k2 ≠ k := fun heq => hknotin (heq ▸ hk2)
      apply Eq.symm
      apply List.filter_congr
      intro a ha
      by_cases hk : keyOf a = k2
      · have hk2ne : ¬ keyOf a = k := fun heq => hne ((hk.symm.trans heq))
        simp [hk, hk2ne, hne]
      · simp [hk]
    have hcov2 : ∀ r ∈ rows.filter (fun r => ! decide (keyOf r = k)),
        keyOf r ∈ ks := by
      intro r hr
      obtain ⟨hrr, hneq⟩ := List.mem_filter.mp hr
      rcases List.mem_cons.mp (hcov r hrr) with he | hin
      · exfalso
        simp at hneq
        exact hneq he
      · exact hin
    have hperm2 := ih hnd2 (rows.filter (fun r => ! decide (keyOf r = k))) hcov2
    rw [hfilters]
    exact (hperm2.append_left _).trans (List.filter_append_perm _ rows)

/-- C7: with every row's date parsed, the Yearly split emits one fragment per
distinct calendar year of the date column — named base_year.ext — holding
exactly the rows of that year, in original order; the fragments reassemble to
a permutation of the original rows (none gained, dropped or duplicated) and
are pairwise disjoint by year. The Monthly split does the same per distinct
(year, month) pair with the month zero-padded to two digits in the name. -/
theorem saveByDate_grouped {Row : Type} (rows : List Row)
    (dateOf : Row → Timestamp) (output_file output_type : String)
    (month_n : Int) :
    (∃ l, saveByDate rows dateOf "Yearly" output_file output_type month_n = some l
      ∧ l = (sortedKeys intLeB (rows.map (fun r => (dateOf r).year))).map (fun y =>
          (baseFileName output_file output_type ++ "_" ++ toString y
             ++ "." ++ output_type,
           rows.filter (fun r => decide ((dateOf r).year = y))))
      ∧ (sortedKeys intLeB (rows.map (fun r => (dateOf r).year))).Nodup
      ∧ (∀ y : Int, y ∈ sortedKeys intLeB (rows.map (fun r => (dateOf r).year))
          ↔ ∃ r ∈ rows, (dateOf r).year = y)
      ∧ ((l.map (fun fr => fr.2)).flatten).Perm rows
      ∧ (∀ fr ∈ l, ∀ r1 ∈ fr.2, r1 ∈ rows)
      ∧ l.Pairwise (fun fr1 fr2 => ∀ r1 ∈ fr1.2, ∀ r2 ∈ fr2.2,
          (dateOf r1).year ≠ (dateOf r2).year))
    ∧ (∃ l, saveByDate rows dateOf "Monthly" output_file output_type month_n = some l
      ∧ l = (sortedKeys pairLeB
            (rows.map (fun r => ((dateOf r).year, (dateOf r).month)))).map (fun p =>
          (baseFileName output_file output_type ++ "_" ++ toString p.1 ++ "_"
             ++ zfill2 p.2 ++ "." ++ output_type,
           rows.filter (fun r => decide (((dateOf r).year, (dateOf r).month) = p))))
      ∧ (sortedKeys pairLeB
          (rows.map (fun r => ((dateOf r).year, (dateOf r).month)))).Nodup
      ∧ (∀ p : Int × Int, p ∈ sortedKeys pairLeB
            (rows.map (fun r => ((dateOf r).year, (dateOf r).month)))
          ↔ ∃ r ∈ rows, ((dateOf r).year, (dateOf r).month) = p)
      ∧ ((l.map (fun fr => fr.2)).flatten).Perm rows
      ∧ l.Pairwise (fun fr1 fr2 => ∀ r1 ∈ fr1.2, ∀ r2 ∈ fr2.2,
          ((dateOf r1).year, (dateOf r1).month)
            ≠ ((dateOf r2).year, (dateOf r2).month))) := by
  constructor
  · refine ⟨_, rfl, rfl, sortedKeys_nodup _ _, ?_, ?_, ?_, ?_⟩
    · intro y
      rw [mem_sortedKeys, List.mem_map]
    · rw [List.map_map]
      exact flatten_groups_perm (fun r => (dateOf r).year) _
        (sortedKeys_nodup _ _) rows
        (fun r hr => (mem_sortedKeys _ _ _).mpr (List.mem_map_of_mem _ hr))
    · intro fr hfr r1 hr1
      rw [List.mem_map] at hfr
      obtain ⟨y, hy, hval⟩ := hfr
      rw [← hval] at hr1
      exact (List.mem_filter.mp hr1).1
    · refine List.pairwise_map.mpr (List.Pairwise.imp ?_ (sortedKeys_nodup _ _))
      intro y1 y2 hne r1 hr1 r2 hr2
      have h1 := of_decide_eq_true (List.mem_filter.mp hr1).2
      have h2 := of_decide_eq_true (List.mem_filter.mp hr2).2
      rw [h1, h2]
      exact hne
  · refine ⟨_, rfl, rfl, sortedKeys_nodup _ _, ?_, ?_, ?_⟩
    · intro p
      rw [mem_sortedKeys, List.mem_map]
    · rw [List.map_map]
      exact flatten_groups_perm (fun r => ((dateOf r).year, (dateOf r).month)) _
        (sortedKeys_nodup _ _) rows
        (fun r hr => (mem_sortedKeys _ _ _).mpr (List.mem_map_of_mem _ hr))
    · refine List.pairwise_map.mpr (List.Pairwise.imp ?_ (sortedKeys_nodup _ _))
      intro p1 p2 hne r1 hr1 r2 hr2
      have h1 := of_decide_eq_true (List.mem_filter.mp hr1).2
      have h2 := of_decide_eq_true (List.mem_filter.mp hr2).2
      rw [h1, h2]
      exact hne

end Convert
